import Mathlib

set_option maxRecDepth 8000

/-!
Verification of the bounded-latency reply pipeline in `app.py`.

Texts are modelled as `List Char` (Python strings are sequences of code
points).  The Python whitespace predicate is modelled on the ASCII
whitespace characters, which are the only whitespace characters occurring
in the verified inputs.
-/

namespace PMP

/-- Whitespace predicate of Python `str.strip` / `lstrip` / `rstrip`
(ASCII whitespace characters). -/
def pyIsSpace (c : Char) : Bool :=
  c == ' ' || c == '\t' || c == '\n' || c == '\r' || c == Char.ofNat 11 || c == Char.ofNat 12

/-- Python `s.lstrip()`: drop leading whitespace. -/
def pyLstrip (s : List Char) : List Char :=
  s.dropWhile pyIsSpace

/-- Python `s.rstrip()`: drop trailing whitespace. -/
def pyRstrip (s : List Char) : List Char :=
  (s.reverse.dropWhile pyIsSpace).reverse

/-- Python `s.strip()`: drop whitespace on both ends. -/
def pyStrip (s : List Char) : List Char :=
  pyLstrip (pyRstrip s)

/-- Scan for Python `rfind`: walk the list left to right (`i` the absolute
index of the current head), remembering in `acc` the index of the latest
occurrence of `c` seen strictly below `hi`. -/
def rfindGo (c : Char) : List Char → Nat → Nat → Option Nat → Option Nat
  | [], _, _, acc => acc
  | x :: rest, i, hi, acc =>
    if i < hi then rfindGo c rest (i + 1) hi (if x = c then some i else acc)
    else acc

/-- Python `s.rfind(c, 0, hi)` for a one-character needle: the greatest
index `i < hi` with `s[i] = c`, `none` standing for Python's `-1`. -/
def rfindChar (s : List Char) (c : Char) (hi : Nat) : Option Nat :=
  rfindGo c s 0 hi none

/-- `MAX_LINE_MESSAGE_LENGTH` from the source (line 36). -/
def MAX_LINE_MESSAGE_LENGTH : Nat := 1000

/-- One loop iteration's cut position in `split_message` (lines 124-128):
the last newline in the first `maxLen` characters, else the last space
there, else a hard cut at `maxLen`. -/
def splitPos (text : List Char) (maxLen : Nat) : Nat :=
  match rfindChar text '\n' maxLen with
  | some i => i
  | none =>
    match rfindChar text ' ' maxLen with
    | some i => i
    | none => maxLen

/-- The `while` loop of `split_message` (lines 122-132), with a fuel
argument bounding the number of iterations; `text.length` fuel suffices
whenever `0 < maxLen`, since each iteration strictly shrinks the text. -/
def splitGo (maxLen : Nat) : Nat → List Char → List (List Char)
  | 0, text => if text.isEmpty then [] else [text]
  | fuel + 1, text =>
    if maxLen < text.length then
      pyRstrip (text.take (splitPos text maxLen))
        :: splitGo maxLen fuel (pyLstrip (text.drop (splitPos text maxLen)))
    else if text.isEmpty then [] else [text]

/-- `split_message` (lines 117-133). -/
def split_message (text : List Char) (maxLen : Nat) : List (List Char) :=
  splitGo maxLen text.length text

example : split_message "ab cd ef".data 5 = ["ab".data, "cd ef".data] := by decide

/-- Interleaving of segments with the whitespace dropped at each boundary:
`interleaveWs [p₀, …] [w₀, …] = p₀ ++ w₀ ++ p₁ ++ w₁ ++ …`. -/
def interleaveWs : List (List Char) → List (List Char) → List Char
  | p :: ps, w :: ws => p ++ (w ++ interleaveWs ps ws)
  | _, _ => []

/-- `parts` reproduces `text` once the whitespace trimmed at the segment
boundaries is re-inserted. -/
def Reconstructs (text : List Char) (parts : List (List Char)) : Prop :=
  ∃ ws : List (List Char), ws.length = parts.length ∧
    (∀ w ∈ ws, ∀ c ∈ w, pyIsSpace c = true) ∧
    interleaveWs parts ws = text

theorem rfindGo_bound (c : Char) :
    ∀ (s : List Char) (i hi : Nat) (acc : Option Nat),
      (∀ j, acc = some j → j < hi) →
      ∀ j, rfindGo c s i hi acc = some j → j < hi := by
  intro s
  induction s with
  | nil => intro i hi acc hacc j h; exact hacc j h
  | cons x rest ih =>
    intro i hi acc hacc j h
    unfold rfindGo at h
    by_cases hcase : i < hi
    · rw [if_pos hcase] at h
      refine ih (i + 1) hi _ ?_ j h
      intro j' hj'
      by_cases hx : x = c
      · rw [if_pos hx] at hj'
        obtain rfl := Option.some.inj hj'
        exact hcase
      · rw [if_neg hx] at hj'
        exact hacc j' hj'
    · rw [if_neg hcase] at h
      exact hacc j h

theorem rfindGo_found (c : Char) :
    ∀ (s : List Char) (i hi : Nat) (acc : Option Nat) (j : Nat),
      rfindGo c s i hi acc = some j →
      acc = some j ∨ ∃ k, j = i + k ∧ s[k]? = some c := by
  intro s
  induction s with
  | nil => intro i hi acc j h; exact Or.inl h
  | cons x rest ih =>
    intro i hi acc j h
    unfold rfindGo at h
    by_cases hcase : i < hi
    · rw [if_pos hcase] at h
      rcases ih (i + 1) hi _ j h with hacc' | ⟨k, rfl, hk⟩
      · by_cases hx : x = c
        · rw [if_pos hx] at hacc'
          obtain rfl := Option.some.inj hacc'
          exact Or.inr ⟨0, by omega, by simp [hx]⟩
        · rw [if_neg hx] at hacc'
          exact Or.inl hacc'
      · exact Or.inr ⟨k + 1, by omega, by simpa using hk⟩
    · rw [if_neg hcase] at h
      exact Or.inl h

theorem rfindChar_lt {s : List Char} {c : Char} {n i : Nat}
    (h : rfindChar s c n = some i) : i < n :=
  rfindGo_bound c s 0 n none (fun _ hj => by cases hj) i h

theorem rfindChar_found {s : List Char} {c : Char} {n i : Nat}
    (h : rfindChar s c n = some i) : s[i]? = some c := by
  rcases rfindGo_found c s 0 n none i h with hacc | ⟨k, rfl, hk⟩
  · cases hacc
  · simpa using hk

theorem splitPos_le (text : List Char) (maxLen : Nat) : splitPos text maxLen ≤ maxLen := by
  unfold splitPos
  split
  next i h => exact Nat.le_of_lt (rfindChar_lt h)
  next =>
    split
    next i h => exact Nat.le_of_lt (rfindChar_lt h)
    next => exact Nat.le_refl _

theorem splitPos_cases (text : List Char) (maxLen : Nat) :
    splitPos text maxLen = maxLen ∨
      ∃ c, pyIsSpace c = true ∧ text[splitPos text maxLen]? = some c := by
  unfold splitPos
  split
  next i h => exact Or.inr ⟨'\n', by decide, rfindChar_found h⟩
  next =>
    split
    next i h => exact Or.inr ⟨' ', by decide, rfindChar_found h⟩
    next => exact Or.inl rfl

theorem pyLstrip_length_le (s : List Char) : (pyLstrip s).length ≤ s.length := by
  unfold pyLstrip
  conv_rhs => rw [← List.takeWhile_append_dropWhile (p := pyIsSpace) (l := s)]
  rw [List.length_append]
  omega

theorem pyRstrip_length_le (s : List Char) : (pyRstrip s).length ≤ s.length := by
  unfold pyRstrip
  rw [List.length_reverse]
  calc (s.reverse.dropWhile pyIsSpace).length ≤ s.reverse.length := pyLstrip_length_le s.reverse
    _ = s.length := List.length_reverse s

theorem pyRstrip_append (s : List Char) :
    ∃ w, s = pyRstrip s ++ w ∧ ∀ c ∈ w, pyIsSpace c = true := by
  refine ⟨(s.reverse.takeWhile pyIsSpace).reverse, ?_, ?_⟩
  · calc s = s.reverse.reverse := (List.reverse_reverse s).symm
      _ = (s.reverse.takeWhile pyIsSpace ++ s.reverse.dropWhile pyIsSpace).reverse := by
          rw [List.takeWhile_append_dropWhile]
      _ = (s.reverse.dropWhile pyIsSpace).reverse ++ (s.reverse.takeWhile pyIsSpace).reverse := by
          rw [List.reverse_append]
      _ = pyRstrip s ++ (s.reverse.takeWhile pyIsSpace).reverse := rfl
  · intro c hc
    rw [List.mem_reverse] at hc
    exact List.mem_takeWhile_imp hc

theorem pyLstrip_append (s : List Char) :
    ∃ w, s = w ++ pyLstrip s ∧ ∀ c ∈ w, pyIsSpace c = true :=
  ⟨s.takeWhile pyIsSpace, (List.takeWhile_append_dropWhile (p := pyIsSpace) (l := s)).symm,
    fun _ hc => List.mem_takeWhile_imp hc⟩

/-- Each loop iteration strictly shrinks the remaining text (for a
positive window), so `text.length` fuel is enough for `splitGo`. -/
theorem split_rest_lt (text : List Char) (maxLen : Nat) (hmax : 0 < maxLen)
    (hlen : maxLen < text.length) :
    (pyLstrip (text.drop (splitPos text maxLen))).length < text.length := by
  rcases splitPos_cases text maxLen with h | ⟨c, hc, hget⟩
  · rw [h]
    calc (pyLstrip (text.drop maxLen)).length ≤ (text.drop maxLen).length :=
          pyLstrip_length_le _
      _ = text.length - maxLen := by rw [List.length_drop]
      _ < text.length := by omega
  · obtain ⟨hlt, hx⟩ := List.getElem?_eq_some.mp hget
    have hdrop : text.drop (splitPos text maxLen)
        = text[splitPos text maxLen] :: text.drop (splitPos text maxLen + 1) :=
      List.drop_eq_getElem_cons hlt
    have hstrip : pyLstrip (text.drop (splitPos text maxLen))
        = pyLstrip (text.drop (splitPos text maxLen + 1)) := by
      unfold pyLstrip
      rw [hdrop, List.dropWhile_cons]
      simp [hx, hc]
    calc (pyLstrip (text.drop (splitPos text maxLen))).length
        = (pyLstrip (text.drop (splitPos text maxLen + 1))).length := by rw [hstrip]
      _ ≤ (text.drop (splitPos text maxLen + 1)).length := pyLstrip_length_le _
      _ = text.length - (splitPos text maxLen + 1) := by rw [List.length_drop]
      _ < text.length := by omega

theorem splitGo_spec (maxLen : Nat) (hmax : 0 < maxLen) :
    ∀ fuel text, text.length ≤ fuel →
      (∀ p ∈ splitGo maxLen fuel text, p.length ≤ maxLen) ∧
      Reconstructs text (splitGo maxLen fuel text) := by
  intro fuel
  induction fuel with
  | zero =>
    intro text hlen
    obtain rfl : text = [] := List.length_eq_zero.mp (Nat.le_zero.mp hlen)
    constructor
    · intro p hp; simp [splitGo] at hp
    · exact ⟨[], rfl, by simp, rfl⟩
  | succ fuel ih =>
    intro text hlen
    by_cases hbig : maxLen < text.length
    · have hrest : (pyLstrip (text.drop (splitPos text maxLen))).length < text.length :=
        split_rest_lt text maxLen hmax hbig
      have hfuel : (pyLstrip (text.drop (splitPos text maxLen))).length ≤ fuel := by omega
      obtain ⟨ihlen, ihrec⟩ := ih (pyLstrip (text.drop (splitPos text maxLen))) hfuel
      have hgo : splitGo maxLen (fuel + 1) text
          = pyRstrip (text.take (splitPos text maxLen))
            :: splitGo maxLen fuel (pyLstrip (text.drop (splitPos text maxLen))) := by
        simp [splitGo, hbig]
      rw [hgo]
      constructor
      · intro p hp
        rcases List.mem_cons.mp hp with rfl | hp'
        · calc (pyRstrip (text.take (splitPos text maxLen))).length
              ≤ (text.take (splitPos text maxLen)).length := pyRstrip_length_le _
            _ ≤ splitPos text maxLen := by
                rw [List.length_take]; exact Nat.min_le_left _ _
            _ ≤ maxLen := splitPos_le text maxLen
        · exact ihlen p hp'
      · obtain ⟨ws, hwlen, hwsp, hweq⟩ := ihrec
        obtain ⟨w1, hw1, hw1sp⟩ := pyRstrip_append (text.take (splitPos text maxLen))
        obtain ⟨w2, hw2, hw2sp⟩ := pyLstrip_append (text.drop (splitPos text maxLen))
        refine ⟨(w1 ++ w2) :: ws, by simp [hwlen], ?_, ?_⟩
        · intro w hw
          rcases List.mem_cons.mp hw with rfl | hw'
          · intro c hc
            rcases List.mem_append.mp hc with h | h
            · exact hw1sp c h
            · exact hw2sp c h
          · exact hwsp w hw'
        · show pyRstrip (text.take (splitPos text maxLen))
            ++ ((w1 ++ w2)
              ++ interleaveWs (splitGo maxLen fuel (pyLstrip (text.drop (splitPos text maxLen)))) ws)
            = text
          rw [hweq]
          conv_rhs => rw [← List.take_append_drop (splitPos text maxLen) text, hw1, hw2]
          simp [List.append_assoc]
    · have hle : text.length ≤ maxLen := Nat.not_lt.mp hbig
      by_cases hemp : text = []
      · subst hemp
        constructor
        · intro p hp; simp [splitGo] at hp
        · exact ⟨[], by simp [splitGo], by simp, by simp [splitGo, interleaveWs]⟩
      · have hgo : splitGo maxLen (fuel + 1) text = [text] := by
          simp [splitGo, hbig, hemp]
        rw [hgo]
        constructor
        · intro p hp
          rcases List.mem_cons.mp hp with rfl | hp'
          · exact hle
          · simp at hp'
        · exact ⟨[[]], rfl, by simp, by simp [interleaveWs]⟩

/-- C2: for every text and every `max_length > 0`, `split_message` returns
segments each of length at most `max_length`; re-inserting the whitespace
trimmed at the segment boundaries reproduces the original text; and any
non-empty text of length at most `max_length` comes back as the single,
unmodified segment. -/
theorem split_message_correct (text : List Char) (maxLen : Nat) (hmax : 0 < maxLen) :
    (∀ p ∈ split_message text maxLen, p.length ≤ maxLen) ∧
    Reconstructs text (split_message text maxLen) ∧
    (text ≠ [] → text.length ≤ maxLen → split_message text maxLen = [text]) := by
  obtain ⟨h1, h2⟩ := splitGo_spec maxLen hmax text.length text (Nat.le_refl _)
  refine ⟨h1, h2, ?_⟩
  intro hne hle
  obtain ⟨c, t, rfl⟩ := List.exists_cons_of_ne_nil hne
  show splitGo maxLen (c :: t).length (c :: t) = [c :: t]
  rw [show (c :: t).length = t.length + 1 from rfl]
  simp only [splitGo]
  rw [if_neg (Nat.not_lt.mpr hle)]
  simp

/-- Witness for C2 at a concrete input. -/
theorem split_message_correct_witness :
    split_message "ab".data 3 = ["ab".data] :=
  (split_message_correct "ab".data 3 (by decide)).2.2 (by decide) (by decide)

/-- Left-to-right scan counting non-overlapping occurrences of a
triple-backtick fence marker; the fuel (first argument) bounds the scan
steps, `s.length` being enough since each step consumes a character. -/
def countFenceGo : Nat → List Char → Nat
  | 0, _ => 0
  | _, [] => 0
  | fuel + 1, c :: rest =>
    if c :: rest.take 2 = "```".data then countFenceGo fuel (rest.drop 2) + 1
    else countFenceGo fuel rest

/-- Python `text.count("```")`: the number of non-overlapping
triple-backtick fence markers in `text`. -/
def countFence (s : List Char) : Nat := countFenceGo s.length s

example : countFence "x``` y``z ``` ````".data = 3 := by decide

/-- Counterexample to C3: the text consisting of a single opening fence is
returned unchanged as one segment holding an odd (unbalanced) number of
fence markers, so not every segment has an even fence count. -/
theorem fence_balance_cx :
    ¬ ∀ p ∈ split_message "```".data 700, countFence p % 2 = 0 := by decide

set_option maxHeartbeats 4000000 in
/-- C3 (amended): `split_message` performs no fence balancing.  In the
spec's scenario — a single fence opened at position 650, `max_length` 700 —
the hard cut falls at 700, the lone fence lands whole in the first chunk,
and the two chunks have fence counts 1 (odd) and 0. -/
theorem fence_scenario_unbalanced :
    split_message (List.replicate 650 'a' ++ "```".data ++ List.replicate 100 'b') 700
      = [List.replicate 650 'a' ++ "```".data ++ List.replicate 47 'b',
         List.replicate 53 'b']
    ∧ countFence (List.replicate 650 'a' ++ "```".data ++ List.replicate 47 'b') % 2 = 1
    ∧ countFence (List.replicate 53 'b') % 2 = 0 := by decide

/-- C10: a preferred cut position at index 0 yields an empty first
segment: for `"\n"` followed by six non-whitespace characters and
`max_length` 5, the last newline in the window is at index 0, so the first
emitted segment is the empty string. -/
theorem empty_segment_possible :
    split_message ('\n' :: List.replicate 6 'a') 5
        = [[], List.replicate 5 'a', ['a']]
    ∧ ([] : List Char) ∈ split_message ('\n' :: List.replicate 6 'a') 5
    ∧ (split_message ('\n' :: List.replicate 6 'a') 5).head? = some [] := by decide

/-! ## The handler (`handle_message`, lines 153-220) and its collaborators -/

/-- `MAX_CONCURRENT_REQUESTS` from the source (line 39). -/
def MAX_CONCURRENT_REQUESTS : Nat := 5

/-- The three diagnostic query strings recognised at line 157. -/
def diagQueries : List (List Char) :=
  ["查詢原因".data, "為什麼沒有回應".data, "無回應原因".data]

/-- The fixed diagnostic reply (line 160). -/
def diagReplyText : List Char :=
  "可能原因包括：系統繁忙、API 回應延遲或網絡問題。請稍後再試或聯繫我們。".data

/-- The fixed busy reply (line 170). -/
def busyReplyText : List Char :=
  "低成本維運中😅 目前系統繁忙，等等在試試吧！".data

/-- The fixed apology for a non-200 response status (line 112). -/
def apologyErrText : List Char :=
  "對不起，生成回應時發生錯誤。可能原因包括：系統繁忙、API 回應延遲或網絡問題，請稍後再試。".data

/-- The fixed apology for a transport exception (line 115). -/
def apologyExnText : List Char :=
  "對不起，生成回應時發生例外。可能原因包括：系統繁忙、API 回應延遲或網絡問題，請稍後再試。".data

/-- Oracle for the single `requests.post` of `call_xai_api`:
either an HTTP response arrived (with its status code and, for a parsed
body, the extracted `choices[0].message.content` text), or the call (or
the body parsing) raised an exception. -/
inductive HttpOutcome where
  | completed (status : Nat) (content : String)
  | raised
deriving DecidableEq

/-- Observable actions of one handled event, in program order. -/
inductive Act where
  | incr
  | decr
  | showLoading
  | apiPost
  | logError
  | replyMsgs (msgs : List (List Char))
  | pushMsg (msg : List Char)
deriving DecidableEq

/-- `call_xai_api` (lines 86-115): the emitted actions (one `requests.post`,
plus an error log on the failure branches) and the returned string.  The
`try/except Exception` around the whole body makes the function total:
a transport failure or body-parsing error yields the fixed exception
apology, a non-200 status the fixed error apology. -/
def call_xai_api (o : HttpOutcome) : List Act × List Char :=
  match o with
  | .completed status content =>
    if status = 200 then ([Act.apiPost], content.data)
    else ([Act.apiPost, Act.logError], apologyErrText)
  | .raised => ([Act.apiPost, Act.logError], apologyExnText)

/-- The `for msg in splitted[5:]` push loop (lines 210-214) inside the
shared `try` of lines 207-216.  `fail k` says whether the `k`-th platform
call of the delivery block raises; the result is the list of attempted
push calls together with the flag telling whether an exception escaped
the loop (aborting it at the failing call). -/
def pushSeq (fail : Nat → Bool) : Nat → List (List Char) → List Act × Bool
  | _, [] => ([], false)
  | k, m :: rest =>
    if fail k then ([Act.pushMsg m], true)
    else
      let r := pushSeq fail (k + 1) rest
      (Act.pushMsg m :: r.1, r.2)

/-- The delivery section (lines 197-216).  Call `0` is the
`reply_message` call; calls `1, 2, …` are the push calls.  In both
branches the whole block sits in a single `try/except` whose handler just
logs, so a failure aborts the remaining sends of the block but never
propagates. -/
def deliverActs (segs : List (List Char)) (fail : Nat → Bool) : List Act :=
  if segs.length ≤ 5 then
    Act.replyMsgs segs :: (if fail 0 then [Act.logError] else [])
  else if fail 0 then
    [Act.replyMsgs (segs.take 5), Act.logError]
  else
    let r := pushSeq fail 1 (segs.drop 5)
    Act.replyMsgs (segs.take 5) :: (r.1 ++ if r.2 then [Act.logError] else [])

/-- `handle_message` (lines 153-220) for one inbound text event, given the
current value `n` of `current_requests` and oracles for the upstream call
(`api`), the loading-animation send (`loadFail`, caught inside
`send_loading_animation`), the delivery sends (`sendFail`) and the
observed generation duration (`genTime`, the source's `total_elapsed`,
which the code computes but never consults).  Returns the final counter
value and the trace of actions.  The diagnostic reply (line 158) and the
busy reply (line 168) have no surrounding `try`; their possible failure
leaves the trace of attempted actions and the counter unchanged, so they
carry no oracle.  Inside the admitted branch every fallible operation is
wrapped in its own `try/except`, so the `finally` of lines 218-220 always
runs after the body completes; the model appends the decrement
accordingly. -/
def handle_message (n : Nat) (text : List Char) (api : HttpOutcome) (loadFail : Bool)
    (sendFail : Nat → Bool) (genTime : Nat) : Nat × List Act :=
  if pyStrip text ∈ diagQueries then
    (n, [Act.replyMsgs [diagReplyText]])
  else if MAX_CONCURRENT_REQUESTS ≤ n then
    (n, [Act.replyMsgs [busyReplyText]])
  else
    (n + 1 - 1,
      Act.incr ::
        ((Act.showLoading :: (if loadFail then [Act.logError] else []))
          ++ (call_xai_api api).1
          ++ deliverActs (split_message (call_xai_api api).2 MAX_LINE_MESSAGE_LENGTH) sendFail)
        ++ [Act.decr])

/-- Lines 185-191: `thread.join(timeout=10)` returns after
`min genTime 10`; if the thread is then still alive the unconditional
`thread.join()` waits the remaining `genTime - 10`.  The returned value is
the elapsed time at which the reply section starts. -/
def replyStartTime (genTime : Nat) : Nat :=
  min genTime 10 + (if 10 < genTime then genTime - 10 else 0)

/-- The sequence of messages the delivery block tried to hand to the
platform, in order (reply batches flattened, pushes one by one). -/
def attemptedPayload : List Act → List (List Char)
  | [] => []
  | Act.replyMsgs ms :: rest => ms ++ attemptedPayload rest
  | Act.pushMsg m :: rest => m :: attemptedPayload rest
  | _ :: rest => attemptedPayload rest

theorem attemptedPayload_append (l1 l2 : List Act) :
    attemptedPayload (l1 ++ l2) = attemptedPayload l1 ++ attemptedPayload l2 := by
  induction l1 with
  | nil => rfl
  | cons a rest ih =>
    cases a <;> simp [attemptedPayload, ih]

theorem attemptedPayload_map_push (ms : List (List Char)) :
    attemptedPayload (ms.map Act.pushMsg) = ms := by
  induction ms with
  | nil => rfl
  | cons m rest ih => simp [attemptedPayload, ih]

theorem attemptedPayload_cons_reply (ms : List (List Char)) (l : List Act) :
    attemptedPayload (Act.replyMsgs ms :: l) = ms ++ attemptedPayload l := rfl

theorem attemptedPayload_ite_log (b : Bool) :
    attemptedPayload (if b then [Act.logError] else []) = [] := by
  cases b <;> rfl

theorem pushSeq_mem (fail : Nat → Bool) :
    ∀ k ms a, a ∈ (pushSeq fail k ms).1 → ∃ m, a = Act.pushMsg m := by
  intro k ms
  induction ms generalizing k with
  | nil => intro a ha; simp [pushSeq] at ha
  | cons m rest ih =>
    intro a ha
    by_cases hf : fail k
    · simp [pushSeq, hf] at ha
      exact ⟨m, ha⟩
    · simp [pushSeq, hf] at ha
      rcases ha with rfl | ha'
      · exact ⟨m, rfl⟩
      · exact ih (k + 1) a ha'

theorem pushSeq_all_ok (fail : Nat → Bool) (h : ∀ j, fail j = false) :
    ∀ k ms, pushSeq fail k ms = (ms.map Act.pushMsg, false) := by
  intro k ms
  induction ms generalizing k with
  | nil => rfl
  | cons m rest ih => simp [pushSeq, h k, ih (k + 1)]

theorem pushSeq_take (fail : Nat → Bool) :
    ∀ k ms, ∃ j, (pushSeq fail k ms).1 = (ms.take j).map Act.pushMsg := by
  intro k ms
  induction ms generalizing k with
  | nil => exact ⟨0, rfl⟩
  | cons m rest ih =>
    by_cases hf : fail k
    · exact ⟨1, by simp [pushSeq, hf]⟩
    · obtain ⟨j, hj⟩ := ih (k + 1)
      exact ⟨j + 1, by simp [pushSeq, hf, hj]⟩

theorem deliver_mem (segs : List (List Char)) (fail : Nat → Bool) :
    ∀ a ∈ deliverActs segs fail,
      (∃ ms, a = Act.replyMsgs ms) ∨ (∃ m, a = Act.pushMsg m) ∨ a = Act.logError := by
  intro a ha
  unfold deliverActs at ha
  by_cases h5 : segs.length ≤ 5
  · rw [if_pos h5] at ha
    rcases List.mem_cons.mp ha with rfl | ha'
    · exact Or.inl ⟨segs, rfl⟩
    · by_cases hf : fail 0
      · simp [hf] at ha'; exact Or.inr (Or.inr ha')
      · simp [hf] at ha'
  · rw [if_neg h5] at ha
    by_cases hf : fail 0
    · simp only [hf, if_true] at ha
      rcases List.mem_cons.mp ha with rfl | ha'
      · exact Or.inl ⟨segs.take 5, rfl⟩
      · simp at ha'
        exact Or.inr (Or.inr ha')
    · simp only [hf, if_false, Bool.false_eq_true] at ha
      rcases List.mem_cons.mp ha with rfl | ha'
      · exact Or.inl ⟨segs.take 5, rfl⟩
      · rcases List.mem_append.mp ha' with hp | hl
        · exact Or.inr (Or.inl (pushSeq_mem fail 1 (segs.drop 5) a hp))
        · by_cases hb : (pushSeq fail 1 (segs.drop 5)).2
          · simp [hb] at hl; exact Or.inr (Or.inr hl)
          · simp [hb] at hl

theorem deliver_count_aux (segs : List (List Char)) (fail : Nat → Bool) (a : Act)
    (h1 : ∀ ms, a ≠ Act.replyMsgs ms) (h2 : ∀ m, a ≠ Act.pushMsg m)
    (h3 : a ≠ Act.logError) :
    (deliverActs segs fail).count a = 0 :=
  List.count_eq_zero.mpr fun hmem => by
    rcases deliver_mem segs fail a hmem with ⟨ms, hms⟩ | ⟨m, hm⟩ | hl
    · exact h1 ms hms
    · exact h2 m hm
    · exact h3 hl

theorem api_count_counter (api : HttpOutcome) :
    (call_xai_api api).1.count Act.incr = 0 ∧ (call_xai_api api).1.count Act.decr = 0 := by
  cases api with
  | completed s c =>
    by_cases hs : s = 200
    · simp only [call_xai_api, if_pos hs]; exact ⟨by decide, by decide⟩
    · simp only [call_xai_api, if_neg hs]; exact ⟨by decide, by decide⟩
  | raised => exact ⟨by decide, by decide⟩

/-- C1: every inbound event balances the admission counter — the trace
holds as many decrements as increments, the counter returns to its entry
value on every exit path (all delivery failures and upstream failures
included, since each is caught before the `finally`), and a rejected or
short-circuited event performs neither an increment nor a decrement while
an admitted one performs exactly one of each. -/
theorem ticket_release_balanced (n : Nat) (text : List Char) (api : HttpOutcome)
    (loadFail : Bool) (sendFail : Nat → Bool) (genTime : Nat) :
    ((handle_message n text api loadFail sendFail genTime).2.count Act.incr
        = (handle_message n text api loadFail sendFail genTime).2.count Act.decr)
    ∧ (handle_message n text api loadFail sendFail genTime).1 = n
    ∧ ((handle_message n text api loadFail sendFail genTime).2.count Act.incr
        = if pyStrip text ∈ diagQueries ∨ MAX_CONCURRENT_REQUESTS ≤ n then 0 else 1) := by
  by_cases hd : pyStrip text ∈ diagQueries
  · simp only [handle_message, if_pos hd]
    exact ⟨by decide, by trivial, by rw [if_pos (Or.inl hd)]; decide⟩
  · by_cases hb : MAX_CONCURRENT_REQUESTS ≤ n
    · simp only [handle_message, if_neg hd, if_pos hb]
      exact ⟨by decide, by trivial, by rw [if_pos (Or.inr hb)]; decide⟩
    · have hcond : ¬(pyStrip text ∈ diagQueries ∨ MAX_CONCURRENT_REQUESTS ≤ n) := by
        rintro (h | h)
        · exact hd h
        · exact hb h
      obtain ⟨hai, had⟩ := api_count_counter api
      have hdel1 : (deliverActs (split_message (call_xai_api api).2 MAX_LINE_MESSAGE_LENGTH)
          sendFail).count Act.incr = 0 :=
        deliver_count_aux _ _ _ (by simp) (by simp) (by simp)
      have hdel2 : (deliverActs (split_message (call_xai_api api).2 MAX_LINE_MESSAGE_LENGTH)
          sendFail).count Act.decr = 0 :=
        deliver_count_aux _ _ _ (by simp) (by simp) (by simp)
      simp only [handle_message, if_neg hd, if_neg hb]
      refine ⟨?_, by simp, ?_⟩
      · cases loadFail <;>
          simp [List.count_cons, List.count_append, hai, had, hdel1, hdel2]
      · rw [if_neg hcond]
        cases loadFail <;>
          simp [List.count_cons, List.count_append, hai, hdel1]


/-- Recogniser for push-channel actions. -/
def isPushAct : Act → Bool
  | Act.pushMsg _ => true
  | _ => false

/-- Counterexample to C4: with an observed elapsed time of 60 s (> 50 s)
the handler still sends via the reply handle and performs no push call —
there is no elapsed-time threshold in the delivery code. -/
theorem delivery_ignores_elapsed_cx :
    50 < 60
    ∧ Act.replyMsgs ["answer".data]
        ∈ (handle_message 0 "hi".data (HttpOutcome.completed 200 "answer") false
            (fun _ => false) 60).2
    ∧ (handle_message 0 "hi".data (HttpOutcome.completed 200 "answer") false
        (fun _ => false) 60).2.filter isPushAct = [] := by decide

/-- C4 (amended): delivery ignores the observed elapsed time entirely
(the source computes `total_elapsed` but never consults it); with no send
failure, at most 5 segments all go through the reply handle in one call,
and with more than 5 the first five go through the reply handle and every
remaining segment is an individual push call, in original order. -/
theorem delivery_policy (n : Nat) (text : List Char) (api : HttpOutcome) (loadFail : Bool)
    (sendFail : Nat → Bool) (g g' : Nat) (segs : List (List Char)) :
    handle_message n text api loadFail sendFail g
      = handle_message n text api loadFail sendFail g'
    ∧ (segs.length ≤ 5 → deliverActs segs (fun _ => false) = [Act.replyMsgs segs])
    ∧ (5 < segs.length → deliverActs segs (fun _ => false)
        = Act.replyMsgs (segs.take 5) :: (segs.drop 5).map Act.pushMsg) := by
  refine ⟨rfl, ?_, ?_⟩
  · intro h5
    simp [deliverActs, h5]
  · intro h5
    have h5' : ¬ segs.length ≤ 5 := Nat.not_le.mpr h5
    simp [deliverActs, h5', pushSeq_all_ok (fun _ => false) (fun _ => rfl) 1 (segs.drop 5)]

/-- Witness for C4 (amended) at six concrete segments. -/
theorem delivery_policy_witness :
    deliverActs [['1'], ['2'], ['3'], ['4'], ['5'], ['6']] (fun _ => false)
      = Act.replyMsgs ([['1'], ['2'], ['3'], ['4'], ['5'], ['6']].take 5)
        :: ([['1'], ['2'], ['3'], ['4'], ['5'], ['6']].drop 5).map Act.pushMsg :=
  (delivery_policy 0 [] HttpOutcome.raised false (fun _ => false) 0 0
    [['1'], ['2'], ['3'], ['4'], ['5'], ['6']]).2.2 (by decide)

/-- Counterexample to C5: an inbound diagnostic query arriving at full
capacity (usage 5) is answered with the fixed diagnostic reply, not the
"system busy" message the claim asserts for every event at capacity. -/
theorem busy_at_capacity_cx :
    MAX_CONCURRENT_REQUESTS ≤ 5
    ∧ handle_message 5 "查詢原因".data (HttpOutcome.completed 200 "x") false
        (fun _ => false) 0 = (5, [Act.replyMsgs [diagReplyText]])
    ∧ Act.replyMsgs [busyReplyText]
        ∉ (handle_message 5 "查詢原因".data (HttpOutcome.completed 200 "x") false
            (fun _ => false) 0).2 := by decide

/-- C5 (amended): every *non-diagnostic* inbound event arriving while
usage is at or above the limit is refused immediately without queueing,
answered with the fixed busy message, and triggers neither a generation
call nor a counter increment. -/
theorem busy_rejected (n : Nat) (text : List Char) (api : HttpOutcome) (loadFail : Bool)
    (sendFail : Nat → Bool) (genTime : Nat)
    (hdiag : pyStrip text ∉ diagQueries) (hcap : MAX_CONCURRENT_REQUESTS ≤ n) :
    handle_message n text api loadFail sendFail genTime
      = (n, [Act.replyMsgs [busyReplyText]])
    ∧ Act.apiPost ∉ (handle_message n text api loadFail sendFail genTime).2
    ∧ Act.incr ∉ (handle_message n text api loadFail sendFail genTime).2 := by
  have h : handle_message n text api loadFail sendFail genTime
      = (n, [Act.replyMsgs [busyReplyText]]) := by
    simp only [handle_message, if_neg hdiag, if_pos hcap]
  refine ⟨h, ?_, ?_⟩ <;> rw [h] <;>
    · show _ ∉ [Act.replyMsgs [busyReplyText]]
      decide

/-- Witness for C5 (amended). -/
theorem busy_rejected_witness :
    handle_message 5 "hello".data (HttpOutcome.completed 200 "x") false
        (fun _ => false) 0 = (5, [Act.replyMsgs [busyReplyText]]) :=
  (busy_rejected 5 "hello".data (HttpOutcome.completed 200 "x") false
    (fun _ => false) 0 (by decide) (by decide)).1

/-- C6: `call_xai_api` performs exactly one `requests.post` per request
(no retries), returns the upstream content on a 200 response, the fixed
error apology on any other status, and the fixed exception apology when
the call or body parsing raises — it never propagates an exception (the
model is a total function because the source wraps the whole body in
`try/except Exception`). -/
theorem call_xai_api_contract (o : HttpOutcome) (s : Nat) (c : String) :
    (call_xai_api o).1.count Act.apiPost = 1
    ∧ (call_xai_api HttpOutcome.raised).2 = apologyExnText
    ∧ (s ≠ 200 → (call_xai_api (HttpOutcome.completed s c)).2 = apologyErrText)
    ∧ (call_xai_api (HttpOutcome.completed 200 c)).2 = c.data := by
  refine ⟨?_, rfl, ?_, rfl⟩
  · cases o with
    | completed s' c' =>
      by_cases hs : s' = 200
      · simp only [call_xai_api, if_pos hs]; decide
      · simp only [call_xai_api, if_neg hs]; decide
    | raised => decide
  · intro hs
    simp only [call_xai_api, if_neg hs]

/-- Witness for C6 at a concrete failed status. -/
theorem call_xai_api_contract_witness :
    (call_xai_api (HttpOutcome.completed 500 "x")).2 = apologyErrText :=
  (call_xai_api_contract (HttpOutcome.completed 500 "x") 500 "x").2.2.1 (by decide)

/-- Counterexample to C7: with seven segments and a failure on the first
push call, the second push (segment `['7']`, a remaining segment whose own
send did not fail) is never attempted — the shared `try` aborts the rest
of the delivery block. -/
theorem delivery_abort_cx :
    Act.pushMsg ['7']
        ∉ deliverActs [['1'], ['2'], ['3'], ['4'], ['5'], ['6'], ['7']] (fun k => k == 1)
    ∧ ['7'] ∈ ([['1'], ['2'], ['3'], ['4'], ['5'], ['6'], ['7']] : List (List Char)).drop 5
    ∧ Act.logError
        ∈ deliverActs [['1'], ['2'], ['3'], ['4'], ['5'], ['6'], ['7']] (fun k => k == 1) := by
  decide

/-- C7 (amended): a send failure is caught and logged and never escapes
the delivery block, but it aborts the remaining sends of that response:
the attempted deliveries always form a prefix of the segment list, and
only when no send fails is every segment attempted, in original order. -/
theorem delivery_failure_scope (segs : List (List Char)) (sendFail : Nat → Bool) :
    (∃ k, attemptedPayload (deliverActs segs sendFail) = segs.take k)
    ∧ ((∀ j, sendFail j = false) →
        attemptedPayload (deliverActs segs sendFail) = segs) := by
  constructor
  · by_cases h5 : segs.length ≤ 5
    · refine ⟨segs.length, ?_⟩
      rw [List.take_length]
      unfold deliverActs
      rw [if_pos h5]
      by_cases hf : sendFail 0 <;> simp [hf, attemptedPayload]
    · by_cases hf : sendFail 0
      · refine ⟨5, ?_⟩
        unfold deliverActs
        rw [if_neg h5, if_pos hf]
        simp [attemptedPayload]
      · obtain ⟨j, hj⟩ := pushSeq_take sendFail 1 (segs.drop 5)
        refine ⟨5 + j, ?_⟩
        have hd : deliverActs segs sendFail
            = Act.replyMsgs (segs.take 5)
              :: ((pushSeq sendFail 1 (segs.drop 5)).1
                ++ if (pushSeq sendFail 1 (segs.drop 5)).2 then [Act.logError] else []) := by
          unfold deliverActs
          rw [if_neg h5, if_neg hf]
        rw [hd, attemptedPayload_cons_reply, attemptedPayload_append, hj,
          attemptedPayload_map_push, attemptedPayload_ite_log, List.append_nil,
          List.take_add]
  · intro hok
    by_cases h5 : segs.length ≤ 5
    · unfold deliverActs
      rw [if_pos h5]
      by_cases hf : sendFail 0 <;> simp [hf, attemptedPayload]
    · have hd : deliverActs segs sendFail
          = Act.replyMsgs (segs.take 5) :: ((segs.drop 5).map Act.pushMsg ++ []) := by
        unfold deliverActs
        rw [if_neg h5, if_neg (by rw [hok 0]; exact Bool.false_ne_true),
          pushSeq_all_ok sendFail hok 1 (segs.drop 5)]
        rfl
      rw [hd, attemptedPayload_cons_reply, attemptedPayload_append,
        attemptedPayload_map_push]
      show segs.take 5 ++ ((segs.drop 5) ++ attemptedPayload []) = segs
      rw [show attemptedPayload [] = [] from rfl, List.append_nil,
        List.take_append_drop]

/-- Witness for C7 (amended): with no failures both segments are attempted. -/
theorem delivery_failure_scope_witness :
    attemptedPayload (deliverActs [['a'], ['b']] (fun _ => false)) = [['a'], ['b']] :=
  (delivery_failure_scope [['a'], ['b']] (fun _ => false)).2 (fun _ => rfl)

/-- Counterexample to C8: a generation call completing after 2 s leads to
the reply section starting at 2 s, before the 10 s indicator duration has
elapsed — no suspension for the remainder exists in the code. -/
theorem reply_pacing_cx :
    ¬ 10 ≤ replyStartTime 2 ∧ replyStartTime 2 = 2 := by decide

/-- C8 (amended): the handler waits exactly until the generation thread
completes — the bounded join followed by the unconditional join adds no
artificial delay, so a generation faster than the indicator duration is
answered immediately and a slower one is waited for fully. -/
theorem reply_start_eq_gen (g : Nat) : replyStartTime g = g := by
  unfold replyStartTime
  by_cases h : 10 < g
  · rw [if_pos h]; omega
  · rw [if_neg h]; omega

/-- C9: an inbound text whose stripped form is one of the three fixed
diagnostic queries is answered immediately with the fixed diagnostic
reply, with no counter increment and no generation call. -/
theorem diag_shortcut (n : Nat) (text : List Char) (api : HttpOutcome) (loadFail : Bool)
    (sendFail : Nat → Bool) (genTime : Nat) (h : pyStrip text ∈ diagQueries) :
    handle_message n text api loadFail sendFail genTime
      = (n, [Act.replyMsgs [diagReplyText]])
    ∧ Act.apiPost ∉ (handle_message n text api loadFail sendFail genTime).2
    ∧ Act.incr ∉ (handle_message n text api loadFail sendFail genTime).2 := by
  have heq : handle_message n text api loadFail sendFail genTime
      = (n, [Act.replyMsgs [diagReplyText]]) := by
    simp only [handle_message, if_pos h]
  refine ⟨heq, ?_, ?_⟩ <;> rw [heq] <;>
    · show _ ∉ [Act.replyMsgs [diagReplyText]]
      decide

/-- Witness for C9 with surrounding whitespace stripped away. -/
theorem diag_shortcut_witness :
    handle_message 0 " 為什麼沒有回應 ".data HttpOutcome.raised false (fun _ => false) 0
      = (0, [Act.replyMsgs [diagReplyText]]) :=
  (diag_shortcut 0 " 為什麼沒有回應 ".data HttpOutcome.raised false
    (fun _ => false) 0 (by decide)).1

end PMP
